import Mathlib

/-!
Verification of the CartographRL rules engine (grid state, shape placement,
connected regions, scoring) against a shallow embedding of the two source
variants (`carthographRL/game/model/map.py`, `cartographRL/game/model/map.py`,
`carthographRL/game/scoring.py`).

Coordinates are integer (row, col) pairs.  The terrain matrix is embedded as a
total function on coordinates; only cells inside the board are meaningful, and
all board computations range over `boardCells`.
-/

namespace CartographRL

abbrev Coord := ℤ × ℤ

instance {ε α : Type} [DecidableEq ε] [DecidableEq α] : DecidableEq (Except ε α) :=
  fun a b =>
    match a, b with
    | Except.error e, Except.error f => decidable_of_iff (e = f) (by simp)
    | Except.ok x, Except.ok y => decidable_of_iff (x = y) (by simp)
    | Except.error _, Except.ok _ => isFalse (by simp)
    | Except.ok _, Except.error _ => isFalse (by simp)

/-- The closed terrain enumeration from `general.py` (`class Terrains(Enum)`). -/
inductive Terrains where
  | village
  | water
  | forest
  | farm
  | monster
  | empty
  | mountain
  | waste
deriving DecidableEq, Repr

/-- The in-bounds cells of a square board of the given size. -/
def boardCells (size : ℕ) : Finset Coord :=
  (Finset.range size ×ˢ Finset.range size).image (fun p => ((p.1 : ℤ), (p.2 : ℤ)))

theorem mem_boardCells {size : ℕ} {c : Coord} :
    c ∈ boardCells size ↔ 0 ≤ c.1 ∧ c.1 < size ∧ 0 ≤ c.2 ∧ c.2 < size := by
  simp only [boardCells, Finset.mem_image, Finset.mem_product, Finset.mem_range]
  constructor
  · rintro ⟨⟨a, b⟩, ⟨ha, hb⟩, rfl⟩
    simp only []
    omega
  · rintro ⟨h1, h2, h3, h4⟩
    refine ⟨(c.1.toNat, c.2.toNat), ⟨?_, ?_⟩, ?_⟩
    · omega
    · omega
    · simp only [Int.toNat_of_nonneg h1, Int.toNat_of_nonneg h3]

theorem card_boardCells (size : ℕ) : (boardCells size).card = size * size := by
  rw [boardCells, Finset.card_image_of_injective _ ?_, Finset.card_product,
    Finset.card_range]
  intro p q h
  simp only [Prod.mk.injEq, Nat.cast_inj] at h
  exact Prod.ext h.1 h.2

/-- 4-adjacency (no diagonals): the two cells differ by one step along one axis. -/
def adjacent (c d : Coord) : Prop :=
  (c.1 - d.1).natAbs + (c.2 - d.2).natAbs = 1

instance (c d : Coord) : Decidable (adjacent c d) := by
  unfold adjacent; infer_instance

theorem adjacent_symm {c d : Coord} (h : adjacent c d) : adjacent d c := by
  unfold adjacent at *
  omega

/-- The game map: square size, terrain matrix, fixed ruin coordinate set
(`Map.__init__` stores `ruin_coords` as "not a terrain, but a special case"). -/
structure Map where
  size : ℕ
  terrain_map : Coord → Terrains
  ruin_coords : Finset Coord

/-- Python-level exceptions raised by the map code:
`ValueError(f"Invalid rotation: ...")`, the `ValueError` raised by `min()` on an
empty sequence, the `IndexError` raised by a numpy index outside
`[-size, size)`, the `ValueError` raised by unpacking `zip(*...)` of an empty
sequence into two variables, and the `TypeError` raised by hashing an object
whose `__hash__` delegates to an unhashable numpy array. -/
inductive PyErr where
  | invalidRot (r : ℤ)
  | minEmpty
  | indexError
  | valueError
  | typeError
deriving DecidableEq, Repr

/-- numpy index semantics for one axis: indices in `[0, n)` are used as is,
indices in `[-n, 0)` wrap to `n + i`, anything else raises `IndexError`. -/
def npWrapIdx (n : ℕ) (i : ℤ) : Option ℤ :=
  if 0 ≤ i ∧ i < n then some i
  else if -(n : ℤ) ≤ i ∧ i < 0 then some (i + n)
  else none

/-- numpy index semantics for a (row, col) pair. -/
def npWrapCoord (n : ℕ) (c : Coord) : Option Coord :=
  match npWrapIdx n c.1, npWrapIdx n c.2 with
  | some a, some b => some (a, b)
  | _, _ => none

theorem npWrapCoord_of_mem {n : ℕ} {c : Coord} (h : c ∈ boardCells n) :
    npWrapCoord n c = some c := by
  rw [mem_boardCells] at h
  unfold npWrapCoord npWrapIdx
  rw [if_pos ⟨h.1, h.2.1⟩, if_pos ⟨h.2.2.1, h.2.2.2⟩]

/-- `Map.__init__`: allocates an all-`EMPTY` `size × size` matrix (numpy rejects
a negative dimension with `ValueError`), writes the mountain coordinates, then
the waste coordinates (each write raising `IndexError` outside `[-size, size)`),
and stores the ruin coordinates without any validation. -/
def Map.init (size : ℤ) (ruin_coords mountain_coords waste_coords : Finset Coord) :
    Option Map :=
  if size < 0 then none
  else
    let n : ℕ := size.toNat
    if (∀ c ∈ mountain_coords, (npWrapCoord n c).isSome) ∧
        (∀ c ∈ waste_coords, (npWrapCoord n c).isSome) then
      some
        { size := n
          terrain_map := fun d =>
            if ∃ c ∈ waste_coords, npWrapCoord n c = some d then Terrains.waste
            else if ∃ c ∈ mountain_coords, npWrapCoord n c = some d then
              Terrains.mountain
            else Terrains.empty
          ruin_coords := ruin_coords }
    else none

/-- A map whose board is entirely `EMPTY`, with no ruins
(the result of `Map.init n ∅ ∅ ∅` for `n ≥ 0`). -/
def emptyMap (n : ℕ) : Map :=
  { size := n, terrain_map := fun _ => Terrains.empty, ruin_coords := ∅ }

/-! ### ShapeTransformer (`transform_to_map_coords`), frozenset variant -/

/-- `{(-x, y) for x, y in shape_coords}` — the mirror step. -/
def mirrorShape (s : Finset Coord) : Finset Coord :=
  s.image fun c => (-c.1, c.2)

/-- `{(y, -x) for x, y in shape_coords}` — one quarter turn. -/
def rotateQuarter (s : Finset Coord) : Finset Coord :=
  s.image fun c => (c.2, -c.1)

/-- `{(-x, -y) for x, y in shape_coords}` — a half turn. -/
def rotateHalf (s : Finset Coord) : Finset Coord :=
  s.image fun c => (-c.1, -c.2)

/-- `{(-y, x) for x, y in shape_coords}` — three quarter turns. -/
def rotateThree (s : Finset Coord) : Finset Coord :=
  s.image fun c => (-c.2, c.1)

/-- `min(x for x, _ in shape_coords)` (0 on the empty set, which the callers
guard against: `min()` of an empty sequence raises). -/
def minFst (s : Finset Coord) : ℤ :=
  ((s.image Prod.fst).min).untop' 0

/-- `min(y for _, y in shape_coords)`. -/
def minSnd (s : Finset Coord) : ℤ :=
  ((s.image Prod.snd).min).untop' 0

/-- `{(x - min_x, y - min_y) for x, y in shape_coords}`. -/
def normalizeShape (s : Finset Coord) : Finset Coord :=
  s.image fun c => (c.1 - minFst s, c.2 - minSnd s)

/-- `{(x + position[0], y + position[1]) for x, y in shape_coords}`. -/
def translateShape (s : Finset Coord) (p : Coord) : Finset Coord :=
  s.image fun c => (c.1 + p.1, c.2 + p.2)

/-- `Map.transform_to_map_coords` (frozenset variant, `cartographRL`):
mirror if requested, dispatch on the rotation (raising
`ValueError(f"Invalid rotation: ...")` outside `{0,1,2,3}`), subtract the
coordinate minima (where `min()` on an empty shape raises `ValueError`), and
translate to the position. -/
def Map.transform_to_map_coords (_m : Map) (shape_coords : Finset Coord)
    (rotation : ℤ) (position : Coord) (mirror : Bool) :
    Except PyErr (Finset Coord) :=
  let s0 := if mirror then mirrorShape shape_coords else shape_coords
  if rotation = 0 ∨ rotation = 1 ∨ rotation = 2 ∨ rotation = 3 then
    let s1 :=
      if rotation = 1 then rotateQuarter s0
      else if rotation = 2 then rotateHalf s0
      else if rotation = 3 then rotateThree s0
      else s0
    if s1 = ∅ then Except.error PyErr.minEmpty
    else Except.ok (translateShape (normalizeShape s1) position)
  else Except.error (PyErr.invalidRot rotation)

/-! ### ShapeTransformer, numpy-array variant (`carthographRL`) -/

/-- `np.min` over a list of values (0 on `[]`, which the caller guards). -/
def listMin (l : List ℤ) : ℤ :=
  (l.minimum).untop' 0

/-- `Map._transform_to_map_coords` (numpy variant, `carthographRL`): identical
arithmetic on an ordered array of coordinates; an empty array raises when the
column slices / `np.min` are taken. -/
def Map.transform_to_map_coords_arr (_m : Map) (shape_coords : List Coord)
    (rotation : ℤ) (position : Coord) (mirror : Bool) :
    Except PyErr (List Coord) :=
  let s0 := if mirror then shape_coords.map (fun c => (-c.1, c.2)) else shape_coords
  if rotation = 0 ∨ rotation = 1 ∨ rotation = 2 ∨ rotation = 3 then
    let s1 :=
      if rotation = 1 then s0.map (fun c => (c.2, -c.1))
      else if rotation = 2 then s0.map (fun c => (-c.1, -c.2))
      else if rotation = 3 then s0.map (fun c => (-c.2, c.1))
      else s0
    if s1 = [] then Except.error PyErr.minEmpty
    else
      let mx := listMin (s1.map Prod.fst)
      let my := listMin (s1.map Prod.snd)
      Except.ok
        ((s1.map fun c => (c.1 - mx, c.2 - my)).map
          fun c => (c.1 + position.1, c.2 + position.2))
  else Except.error (PyErr.invalidRot rotation)

/-! ### Cluster: a coordinate set viewed against a map snapshot -/

/-- `Cluster.__init__`: stores the coordinate set and the map sheet. -/
structure Cluster where
  coords : Finset Coord
  map_sheet : Map

/-- `Cluster.surrounding_coords` / `surrounding_mask`:
`x_idx, y_idx = zip(*self.coords)` raises `ValueError` when the coordinate set
is empty; `f[x_idx, y_idx] = True` wraps indices in `[-size, 0)` and raises
`IndexError` outside `[-size, size)`; then
`ski.segmentation.find_boundaries(f, mode="outer", connectivity=1)` marks the
in-bounds cells that are not in the (wrapped) cluster mask and are 4-adjacent
to a mask cell; off-grid neighbors never appear. -/
def Cluster.surrounding_coords (cl : Cluster) : Except PyErr (Finset Coord) :=
  if cl.coords = ∅ then Except.error PyErr.valueError
  else if ∀ c ∈ cl.coords, (npWrapCoord cl.map_sheet.size c).isSome then
    Except.ok ((boardCells cl.map_sheet.size).filter fun d =>
      (¬ ∃ c ∈ cl.coords, npWrapCoord cl.map_sheet.size c = some d) ∧
      ∃ c ∈ cl.coords, ∃ w, npWrapCoord cl.map_sheet.size c = some w ∧ adjacent d w)
  else Except.error PyErr.indexError

/-- `Cluster.surrounding_terrains`: one terrain value per boundary coordinate;
`x_idx, y_idx = zip(*self.surrounding_coords())` raises `ValueError` when the
boundary is empty. -/
def Cluster.surrounding_terrains (cl : Cluster) : Except PyErr (Multiset Terrains) :=
  match cl.surrounding_coords with
  | Except.error e => Except.error e
  | Except.ok sc =>
      if sc = ∅ then Except.error PyErr.valueError
      else Except.ok (sc.val.map cl.map_sheet.terrain_map)

/-- `Cluster.is_surrounded`:
`Terrains.EMPTY.value not in self.surrounding_terrains()` — any exception of
`surrounding_terrains` propagates. -/
def Cluster.is_surrounded (cl : Cluster) : Except PyErr Bool :=
  match cl.surrounding_terrains with
  | Except.error e => Except.error e
  | Except.ok ts => Except.ok (decide (Terrains.empty ∉ ts))

/-- `Cluster.on_map`: every coordinate is inside the board. -/
def Cluster.on_map (cl : Cluster) : Prop :=
  ∀ c ∈ cl.coords,
    0 ≤ c.1 ∧ c.1 < cl.map_sheet.size ∧ 0 ≤ c.2 ∧ c.2 < cl.map_sheet.size

instance (cl : Cluster) : Decidable cl.on_map := by
  unfold Cluster.on_map; infer_instance

/-- `Cluster.on_ruin`: the coordinate set intersects the map's ruin set. -/
def Cluster.on_ruin (cl : Cluster) : Prop :=
  (cl.coords ∩ cl.map_sheet.ruin_coords).Nonempty

instance (cl : Cluster) : Decidable cl.on_ruin := by
  unfold Cluster.on_ruin; infer_instance

/-- `Cluster.is_occupied`: some coordinate already holds a non-`EMPTY` terrain. -/
def Cluster.is_occupied (cl : Cluster) : Prop :=
  ∃ c ∈ cl.coords, cl.map_sheet.terrain_map c ≠ Terrains.empty

instance (cl : Cluster) : Decidable cl.is_occupied := by
  unfold Cluster.is_occupied; infer_instance

/-- The typed move errors of `Cluster.is_valid(raise_error=True)`
(`InvalidMoveError` with the three messages, in check order). -/
inductive InvalidMoveError where
  | outOfBounds
  | occupied
  | ruinRequired
deriving DecidableEq, Repr

/-- `Cluster.is_valid(on_ruin, raise_error=False)`: checks, in order, on-map,
not occupied, and (when required) ruin overlap; returns a plain boolean. -/
def Cluster.is_valid (cl : Cluster) (on_ruin : Bool) : Bool :=
  if ¬ cl.on_map then false
  else if cl.is_occupied then false
  else if on_ruin ∧ ¬ cl.on_ruin then false
  else true

/-- `Cluster.is_valid(on_ruin, raise_error=True)`: the same three checks, each
failure raising the corresponding `InvalidMoveError`. -/
def Cluster.is_valid_err (cl : Cluster) (on_ruin : Bool) :
    Except InvalidMoveError Unit :=
  if ¬ cl.on_map then Except.error InvalidMoveError.outOfBounds
  else if cl.is_occupied then Except.error InvalidMoveError.occupied
  else if on_ruin ∧ ¬ cl.on_ruin then Except.error InvalidMoveError.ruinRequired
  else Except.ok ()

theorem is_valid_iff_is_valid_err (cl : Cluster) (on_ruin : Bool) :
    cl.is_valid on_ruin = true ↔ cl.is_valid_err on_ruin = Except.ok () := by
  unfold Cluster.is_valid Cluster.is_valid_err
  by_cases h1 : cl.on_map
  · by_cases h2 : cl.is_occupied
    · simp [h1, h2]
    · by_cases h3 : on_ruin ∧ ¬ cl.on_ruin
      · simp [h1, h2, h3]
      · simp [h1, h2, h3]
  · simp [h1]

/-- `Map.transform_to_cluster`: transform, then wrap in a `Cluster`. -/
def Map.transform_to_cluster (m : Map) (shape_coords : Finset Coord)
    (rotation : ℤ) (position : Coord) (mirror : Bool) :
    Except PyErr Cluster :=
  match m.transform_to_map_coords shape_coords rotation position mirror with
  | Except.error e => Except.error e
  | Except.ok cluster_coords => Except.ok (Cluster.mk cluster_coords m)

/-- The numpy fancy-assignment `terrain_map[x_idx, y_idx] = terrain.value`:
raises `IndexError` if any index is outside `[-size, size)`, otherwise writes
the terrain at every (wrapped) listed cell. -/
def Map.writeCells (m : Map) (cs : Finset Coord) (terrain : Terrains) :
    Except PyErr Map :=
  if ∀ c ∈ cs, (npWrapCoord m.size c).isSome then
    Except.ok
      { m with
        terrain_map := fun d =>
          if ∃ c ∈ cs, npWrapCoord m.size c = some d then terrain
          else m.terrain_map d }
  else Except.error PyErr.indexError

/-- `Map.place` (frozenset variant): transforms the shape, calls
`cluster.is_valid(on_ruin)` — with `raise_error` left at its default `False`,
so the boolean result is discarded and no `InvalidMoveError` can be raised —
and then writes the terrain at the transformed cluster coordinates
unconditionally. -/
def Map.place (m : Map) (shape_coords : Finset Coord) (terrain : Terrains)
    (rotation : ℤ) (position : Coord) (mirror : Bool) (on_ruin : Bool) :
    Except PyErr Map :=
  match m.transform_to_cluster shape_coords rotation position mirror with
  | Except.error e => Except.error e
  | Except.ok cluster =>
      let _discarded := cluster.is_valid on_ruin
      m.writeCells cluster.coords terrain

/-- `Map.is_setable`: transform (which can raise), then validate without
raising. -/
def Map.is_setable (m : Map) (coords : Finset Coord) (rotation : ℤ)
    (position : Coord) (mirror : Bool) (on_ruin : Bool) : Except PyErr Bool :=
  match m.transform_to_cluster coords rotation position mirror with
  | Except.error e => Except.error e
  | Except.ok cluster => Except.ok (cluster.is_valid on_ruin)

/-! ### ClusterFinder (`Map.clusters` via `ski.measure.label(..., connectivity=1)`) -/

/-- All board cells holding the given terrain
(the mask `terrain_map == terrain_type.value`). -/
def cellsOf (m : Map) (t : Terrains) : Finset Coord :=
  (boardCells m.size).filter fun c => m.terrain_map c = t

/-- One step of 4-connected flood fill: add every terrain cell adjacent to the
current set. -/
def clusterStep (m : Map) (t : Terrains) (s : Finset Coord) : Finset Coord :=
  s ∪ (cellsOf m t).filter fun d => ∃ c ∈ s, adjacent c d

/-- The 4-connected component of a terrain cell, as computed by iterating the
flood-fill step to its fixed point (`size * size` steps always suffice). -/
def clusterFrom (m : Map) (t : Terrains) (c : Coord) : Finset Coord :=
  (clusterStep m t)^[m.size * m.size] {c}

/-- The components of the `ski.measure.label(terrain_map == t, background=False,
connectivity=1)` label array: one coordinate set per non-zero label (each label
marks one maximal 4-connected component of the mask). -/
def labelComponents (m : Map) (t : Terrains) : Finset (Finset Coord) :=
  (cellsOf m t).image fun c => clusterFrom m t c

/-- Raster (row-major) order on coordinates: the order in which
`ski.measure.label` first encounters cells and `np.argwhere` lists them. -/
def rasterLe (c d : Coord) : Prop :=
  c.1 < d.1 ∨ (c.1 = d.1 ∧ c.2 ≤ d.2)

instance : DecidableRel rasterLe := fun c d => by
  unfold rasterLe; infer_instance

instance : IsTrans Coord rasterLe :=
  ⟨by intro a b c hab hbc; unfold rasterLe at *; omega⟩

instance : IsAntisymm Coord rasterLe :=
  ⟨by
    intro a b hab hba
    unfold rasterLe at *
    exact Prod.ext (by omega) (by omega)⟩

instance : IsTotal Coord rasterLe :=
  ⟨by intro a b; unfold rasterLe; omega⟩

/-- A coordinate set listed in raster order. -/
def rasterList (s : Finset Coord) : List Coord :=
  s.sort rasterLe

/-- `Map.clusters` (list variant, `carthographRL`): a plain list comprehension
over the non-zero labels, one `Cluster` (here: its coordinate set) per label.
We enumerate every terrain cell's component in raster order and drop
duplicates, so the list holds exactly one entry per component of the label
array; the comprehension builds no set and so never hashes a `Cluster`. -/
def Map.clusters_arr (m : Map) (t : Terrains) : List (Finset Coord) :=
  ((rasterList (cellsOf m t)).map fun c => clusterFrom m t c).dedup

/-- `Map.clusters` (frozenset variant, `cartographRL`): builds the same
per-label `Cluster`s but collects them with a set comprehension wrapped in
`frozenset`.  `Cluster.__hash__` returns `self.coords.__hash__()`, and the
coords passed here are `np.argwhere(...)` arrays, which are unhashable
(`ndarray.__hash__` is `None`) — so inserting the first `Cluster` into the set
raises `TypeError`.  The method returns (an empty frozenset) only when the
terrain is entirely absent; whenever at least one cluster exists it raises. -/
def Map.clusters (m : Map) (t : Terrains) : Except PyErr (Finset (Finset Coord)) :=
  if cellsOf m t = ∅ then Except.ok ∅
  else Except.error PyErr.typeError

/-- A single step of same-terrain 4-adjacency (the edge relation under the
connectivity-1 labelling). -/
def stepRel (m : Map) (t : Terrains) (c d : Coord) : Prop :=
  c ∈ cellsOf m t ∧ d ∈ cellsOf m t ∧ adjacent c d

/-- 4-connectivity: the reflexive-transitive closure of `stepRel`. -/
def ReachRel (m : Map) (t : Terrains) : Coord → Coord → Prop :=
  Relation.ReflTransGen (stepRel m t)

/-! ### Scoring (`scoring.py`) -/

/-- Python exceptions raised by scoring evaluators: `NameError` (a call to a
name not defined anywhere in the module) and `NotImplementedError`. -/
inductive ScoringErr where
  | nameError
  | notImplemented
deriving DecidableEq, Repr

/-- The count of background (non-matching) cells in the label array — label `0`
of `ski.measure.label`, which `np.unique(clusters, return_counts=True)` counts
alongside the component labels. -/
def backgroundCard (m : Map) (t : Terrains) : ℕ :=
  ((boardCells m.size).filter fun c => ¬ m.terrain_map c = t).card

/-- The component sizes (one count per non-zero label): `scoring.py` works on
the label array directly (`_cluster_map` / `np.unique`), building no `Cluster`
objects, so no hashing is involved here. -/
def clusterSizes (m : Map) (t : Terrains) : Multiset ℕ :=
  (labelComponents m t).val.map Finset.card

/-- `np.sort`: the ascending sorted list of a multiset of counts. -/
def msort (s : Multiset ℕ) : List ℕ :=
  Quot.liftOn s (fun l => l.insertionSort (· ≤ ·)) fun l1 l2 h =>
    List.eq_of_perm_of_sorted
      (((l1.perm_insertionSort (· ≤ ·)).trans h).trans
        (l2.perm_insertionSort (· ≤ ·)).symm)
      (l1.sorted_insertionSort (· ≤ ·)) (l2.sorted_insertionSort (· ≤ ·))

/-- `schild_des_reiches`: takes `np.unique(clusters, return_counts=True)` over
the whole label array — so the background label `0` and its count are included
whenever any cell is background — returns 0 when there are fewer than 3
distinct labels, and otherwise returns `np.sort(cluster_sizes)[-2] * 2`, the
second-largest of all the counts including the background count. -/
def schild_des_reiches (m : Map) : ℤ :=
  let bg := backgroundCard m Terrains.village
  let counts : Multiset ℕ :=
    (if 0 < bg then {bg} else 0) + clusterSizes m Terrains.village
  if counts.card < 3 then 0
  else ((msort counts).getD (counts.card - 2) 0 : ℤ) * 2

/-- `schillernde_ebene`: its first statement calls
`_boundary_values_by_cluster(...)`, a name that is not defined anywhere in
`scoring.py` (the module defines `_boundaries_values`), so every call raises
`NameError` before anything else happens. -/
def schillernde_ebene (_m : Map) : Except ScoringErr ℤ :=
  Except.error ScoringErr.nameError

/-- `pfad_des_waldes`: also calls the undefined
`_boundary_values_by_cluster(...)`, so every call raises `NameError`; moreover
its final `return` statement is commented out, so even with the helper restored
it would fall through and return `None` rather than an integer. -/
def pfad_des_waldes (_m : Map) : Except ScoringErr ℤ :=
  Except.error ScoringErr.nameError

/-- `goldener_kornspeicher`: its body is `raise NotImplementedError()`. -/
def goldener_kornspeicher (_m : Map) : Except ScoringErr ℤ :=
  Except.error ScoringErr.notImplemented

/-! ### Concrete maps used as failing inputs -/

/-- A 2×2 board with a mountain at (0,0): `Map.init 2 ∅ {(0,0)} ∅`. -/
def mMountain : Map :=
  { size := 2
    terrain_map := fun c => if c = ((0 : ℤ), (0 : ℤ)) then Terrains.mountain
      else Terrains.empty
    ruin_coords := ∅ }

/-- The ten village cells of the two-cluster scenario: one 4-connected
component of size 3 (row 0) and one of size 7 (rows 2–3), separated by the
empty row 1. -/
def villagesTwoClusters : Finset Coord :=
  {((0 : ℤ), (0 : ℤ)), (0, 1), (0, 2),
   (2, 0), (2, 1), (2, 2), (2, 3), (2, 4), (3, 0), (3, 1)}

/-- A 5×5 board holding exactly the two village clusters of sizes 3 and 7. -/
def mTwoClusters : Map :=
  { size := 5
    terrain_map := fun c => if c ∈ villagesTwoClusters then Terrains.village
      else Terrains.empty
    ruin_coords := ∅ }

/-! ## Claim theorems -/

/-- C1: the claim fails on the code. `place` calls `cluster.is_valid(on_ruin)`
with `raise_error` left at its default `False`, so the validation verdict is
discarded: on a 2×2 board whose cell (0,0) holds a mountain, placing a
single-cell village on (0,0) fails validation (`Occupied`), yet `place`
returns normally and the cell is overwritten with the village terrain. -/
theorem place_mutates_despite_failed_validation :
    (Cluster.mk {((0 : ℤ), (0 : ℤ))} mMountain).is_valid false = false ∧
    mMountain.terrain_map ((0 : ℤ), (0 : ℤ)) = Terrains.mountain ∧
    Except.map (fun m2 => m2.terrain_map ((0 : ℤ), (0 : ℤ)))
        (mMountain.place {((0 : ℤ), (0 : ℤ))} Terrains.village 0 (0, 0) false false)
      = Except.ok Terrains.village := by
  refine ⟨by decide, rfl, by decide⟩

/-- C3: the claim fails on the code. On the all-empty 11×11 grid (so Village,
Forest and Water are each entirely absent) the registry evaluators
`schillernde_ebene` and `pfad_des_waldes` raise `NameError` (they call the
undefined `_boundary_values_by_cluster`) and `goldener_kornspeicher` raises
`NotImplementedError`; none of them returns 0. -/
theorem scoring_evaluators_raise_on_empty_grid :
    schillernde_ebene (emptyMap 11) = Except.error ScoringErr.nameError ∧
    pfad_des_waldes (emptyMap 11) = Except.error ScoringErr.nameError ∧
    goldener_kornspeicher (emptyMap 11) = Except.error ScoringErr.notImplemented :=
  ⟨rfl, rfl, rfl⟩

/-- C4: the claim fails on the code. On a grid holding exactly two disjoint
village clusters of sizes 3 and 7, `schild_des_reiches` sorts the
`np.unique(..., return_counts=True)` counts with the background count still
included, so `[-2]` picks the *largest* village cluster: it returns
`7 * 2 = 14`, not `3 * 2 = 6`. -/
theorem schild_des_reiches_counts_background :
    clusterSizes mTwoClusters Terrains.village = ({3, 7} : Multiset ℕ) ∧
    schild_des_reiches mTwoClusters = 7 * 2 ∧
    schild_des_reiches mTwoClusters ≠ 3 * 2 := by
  refine ⟨by decide, by decide, by decide⟩

/-- C6 counterexample: constructing a `Map` of size 3 with the out-of-bounds
ruin coordinate (5,5) is *not* rejected — construction succeeds, stores the
bogus ruin coordinate unchecked, a zero board size is likewise accepted, and
the resulting grid is usable (a `place` on it succeeds). -/
theorem init_accepts_invalid_arguments :
    (Map.init 3 {((5 : ℤ), (5 : ℤ))} ∅ ∅).isSome = true ∧
    Option.map (fun m => m.ruin_coords) (Map.init 3 {((5 : ℤ), (5 : ℤ))} ∅ ∅)
      = some {((5 : ℤ), (5 : ℤ))} ∧
    (Map.init 0 ∅ ∅ ∅).isSome = true ∧
    Option.map
        (fun m => Except.map (fun m2 => m2.terrain_map ((1 : ℤ), (1 : ℤ)))
          (m.place {((0 : ℤ), (0 : ℤ))} Terrains.village 0 (1, 1) false false))
        (Map.init 3 {((5 : ℤ), (5 : ℤ))} ∅ ∅)
      = some (Except.ok Terrains.village) := by
  refine ⟨by decide, by decide, by decide, by decide⟩

/-- C6 (amended): construction performs no contract validation of its own.
A negative size fails only because the array allocation rejects it; any
non-negative size — including 0 — is accepted, and the ruin coordinates are
stored exactly as given, without any bounds check. -/
theorem init_validation (size : ℤ) (ruins : Finset Coord) :
    (size < 0 → Map.init size ruins ∅ ∅ = none) ∧
    (0 ≤ size →
      Option.map (fun m => m.ruin_coords) (Map.init size ruins ∅ ∅) = some ruins) := by
  constructor
  · intro h
    unfold Map.init
    rw [if_pos h]
  · intro h
    unfold Map.init
    rw [if_neg (by omega)]
    simp

/-- C6 (amended) witness at size -1, and at size 3 with ruin (5,5). -/
theorem init_validation_witness :
    Map.init (-1) ∅ ∅ ∅ = none ∧
    Option.map (fun m => m.ruin_coords) (Map.init 3 {((5 : ℤ), (5 : ℤ))} ∅ ∅)
      = some {((5 : ℤ), (5 : ℤ))} :=
  ⟨(init_validation (-1) ∅).1 (by decide),
   (init_validation 3 {((5 : ℤ), (5 : ℤ))}).2 (by decide)⟩

/-! ### Helper lemmas on validation and the transform -/

theorem is_valid_on_map {cl : Cluster} {b : Bool} (h : cl.is_valid b = true) :
    cl.on_map := by
  unfold Cluster.is_valid at h
  by_cases h1 : cl.on_map
  · exact h1
  · simp [h1] at h

theorem on_map_subset_board {cl : Cluster} (h : cl.on_map) :
    cl.coords ⊆ boardCells cl.map_sheet.size := by
  intro c hc
  rw [mem_boardCells]
  exact h c hc

theorem transform_invalid_none (m : Map) (s : Finset Coord) (rotation : ℤ)
    (position : Coord) (mirror : Bool)
    (h : ¬(rotation = 0 ∨ rotation = 1 ∨ rotation = 2 ∨ rotation = 3) ∨ s = ∅) :
    (m.transform_to_map_coords s rotation position mirror).toOption = none := by
  unfold Map.transform_to_map_coords
  rcases h with h | rfl
  · rw [if_neg h]
    rfl
  · by_cases hrot : rotation = 0 ∨ rotation = 1 ∨ rotation = 2 ∨ rotation = 3
    · rw [if_pos hrot]
      cases mirror <;>
        simp [mirrorShape, rotateQuarter, rotateHalf, rotateThree] <;> rfl
    · rw [if_neg hrot]
      rfl

theorem shape_nonempty_of_transform_ok {m : Map} {s out : Finset Coord}
    {rotation : ℤ} {position : Coord} {mirror : Bool}
    (h : m.transform_to_map_coords s rotation position mirror = Except.ok out) :
    s.Nonempty := by
  rcases s.eq_empty_or_nonempty with rfl | hs
  · have := transform_invalid_none m ∅ rotation position mirror (Or.inr rfl)
    rw [h] at this
    cases this
  · exact hs

theorem translate_zero (s : Finset Coord) : translateShape s (0, 0) = s := by
  unfold translateShape
  have hfun : (fun c : Coord => (c.1 + ((0 : ℤ), (0 : ℤ)).1, c.2 + ((0 : ℤ), (0 : ℤ)).2))
      = (id : Coord → Coord) := by
    funext c
    simp
  rw [hfun, Finset.image_id]

theorem transform_rot0_ok (m : Map) (s : Finset Coord) (position : Coord)
    (hne : s.Nonempty) :
    m.transform_to_map_coords s 0 position false
      = Except.ok (translateShape (normalizeShape s) position) := by
  unfold Map.transform_to_map_coords
  rw [if_pos (Or.inl rfl)]
  norm_num
  intro h
  exact absurd h hne.ne_empty

theorem transform_rot1_ok (m : Map) (s : Finset Coord) (position : Coord)
    (hne : s.Nonempty) :
    m.transform_to_map_coords s 1 position false
      = Except.ok (translateShape (normalizeShape (rotateQuarter s)) position) := by
  unfold Map.transform_to_map_coords
  rw [if_pos (Or.inr (Or.inl rfl))]
  norm_num
  intro h
  exact absurd h (Finset.Nonempty.ne_empty (hne.image _))

/-! ### Minima of coordinate sets -/

theorem minFst_eq_min' (s : Finset Coord) (h : s.Nonempty) :
    minFst s = (s.image Prod.fst).min' (h.image _) := by
  unfold minFst
  rw [← Finset.coe_min' (h.image Prod.fst)]
  rfl

theorem minSnd_eq_min' (s : Finset Coord) (h : s.Nonempty) :
    minSnd s = (s.image Prod.snd).min' (h.image _) := by
  unfold minSnd
  rw [← Finset.coe_min' (h.image Prod.snd)]
  rfl

theorem minFst_spec (s : Finset Coord) (h : s.Nonempty) :
    (∃ c ∈ s, c.1 = minFst s) ∧ ∀ c ∈ s, minFst s ≤ c.1 := by
  rw [minFst_eq_min' s h]
  constructor
  · have := Finset.min'_mem (s.image Prod.fst) (h.image _)
    rcases Finset.mem_image.mp this with ⟨c, hc, hc1⟩
    exact ⟨c, hc, hc1⟩
  · intro c hc
    exact Finset.min'_le _ _ (Finset.mem_image_of_mem _ hc)

theorem minSnd_spec (s : Finset Coord) (h : s.Nonempty) :
    (∃ c ∈ s, c.2 = minSnd s) ∧ ∀ c ∈ s, minSnd s ≤ c.2 := by
  rw [minSnd_eq_min' s h]
  constructor
  · have := Finset.min'_mem (s.image Prod.snd) (h.image _)
    rcases Finset.mem_image.mp this with ⟨c, hc, hc2⟩
    exact ⟨c, hc, hc2⟩
  · intro c hc
    exact Finset.min'_le _ _ (Finset.mem_image_of_mem _ hc)

theorem minFst_unique (s : Finset Coord) (h : s.Nonempty) (a : ℤ)
    (hmem : ∃ c ∈ s, c.1 = a) (hle : ∀ c ∈ s, a ≤ c.1) : minFst s = a := by
  rcases hmem with ⟨c, hc, rfl⟩
  rcases minFst_spec s h with ⟨⟨d, hd, hd1⟩, hmin⟩
  exact le_antisymm (hmin c hc) (hd1 ▸ hle d hd)

theorem minSnd_unique (s : Finset Coord) (h : s.Nonempty) (a : ℤ)
    (hmem : ∃ c ∈ s, c.2 = a) (hle : ∀ c ∈ s, a ≤ c.2) : minSnd s = a := by
  rcases hmem with ⟨c, hc, rfl⟩
  rcases minSnd_spec s h with ⟨⟨d, hd, hd2⟩, hmin⟩
  exact le_antisymm (hmin c hc) (hd2 ▸ hle d hd)

theorem minFst_translate (s : Finset Coord) (h : s.Nonempty) (p : Coord) :
    minFst (translateShape s p) = minFst s + p.1 := by
  apply minFst_unique _ (h.image _)
  · rcases (minFst_spec s h).1 with ⟨c, hc, hc1⟩
    refine ⟨(c.1 + p.1, c.2 + p.2), Finset.mem_image_of_mem _ hc, ?_⟩
    rw [hc1]
  · intro d hd
    rcases Finset.mem_image.mp hd with ⟨c, hc, rfl⟩
    exact add_le_add_right ((minFst_spec s h).2 c hc) p.1

theorem minSnd_translate (s : Finset Coord) (h : s.Nonempty) (p : Coord) :
    minSnd (translateShape s p) = minSnd s + p.2 := by
  apply minSnd_unique _ (h.image _)
  · rcases (minSnd_spec s h).1 with ⟨c, hc, hc2⟩
    refine ⟨(c.1 + p.1, c.2 + p.2), Finset.mem_image_of_mem _ hc, ?_⟩
    rw [hc2]
  · intro d hd
    rcases Finset.mem_image.mp hd with ⟨c, hc, rfl⟩
    exact add_le_add_right ((minSnd_spec s h).2 c hc) p.2

theorem normalize_translate (s : Finset Coord) (p : Coord) :
    normalizeShape (translateShape s p) = normalizeShape s := by
  rcases s.eq_empty_or_nonempty with rfl | h
  · simp [translateShape, normalizeShape]
  · unfold normalizeShape
    rw [minFst_translate s h p, minSnd_translate s h p]
    unfold translateShape
    rw [Finset.image_image]
    congr 1
    funext c
    simp only [Function.comp, Prod.mk.injEq]
    exact ⟨by ring, by ring⟩

theorem rotate_translate (s : Finset Coord) (p : Coord) :
    rotateQuarter (translateShape s p) = translateShape (rotateQuarter s) (p.2, -p.1) := by
  unfold rotateQuarter translateShape
  rw [Finset.image_image, Finset.image_image]
  congr 1
  funext c
  simp only [Function.comp, Prod.mk.injEq]
  exact ⟨trivial, by ring⟩

theorem normalize_as_translate (s : Finset Coord) :
    normalizeShape s = translateShape s (-minFst s, -minSnd s) := by
  unfold normalizeShape translateShape
  congr 1

theorem normalize_rotate_normalize (u : Finset Coord) :
    normalizeShape (rotateQuarter (normalizeShape u)) = normalizeShape (rotateQuarter u) := by
  rw [normalize_as_translate u, rotate_translate, normalize_translate]

theorem rotateQuarter_twice (u : Finset Coord) :
    rotateQuarter (rotateQuarter u) = u.image fun c => (-c.1, -c.2) := by
  unfold rotateQuarter
  rw [Finset.image_image]
  rfl

theorem rotateQuarter_four (s : Finset Coord) :
    rotateQuarter (rotateQuarter (rotateQuarter (rotateQuarter s))) = s := by
  rw [rotateQuarter_twice, rotateQuarter_twice, Finset.image_image]
  have hfun : ((fun c : Coord => (-c.1, -c.2)) ∘ fun c : Coord => (-c.1, -c.2))
      = (id : Coord → Coord) := by
    funext c
    simp [Function.comp]
  rw [hfun, Finset.image_id]

/-! ### C9 and C2 -/

/-- C9: a rotation outside {0,1,2,3}, or an empty shape, makes the transform
raise (`ValueError`) and never produce a coordinate set. -/
theorem transform_rejects_invalid_parameters (m : Map) (s : Finset Coord)
    (rotation : ℤ) (position : Coord) (mirror : Bool)
    (h : ¬(rotation = 0 ∨ rotation = 1 ∨ rotation = 2 ∨ rotation = 3) ∨ s = ∅) :
    (m.transform_to_map_coords s rotation position mirror).toOption = none :=
  transform_invalid_none m s rotation position mirror h

/-- C9 witness: rotation 5 and the empty shape are both rejected. -/
theorem transform_rejects_invalid_parameters_witness :
    ((emptyMap 2).transform_to_map_coords {((0 : ℤ), (0 : ℤ))} 5 (0, 0) false).toOption
        = none ∧
    ((emptyMap 2).transform_to_map_coords ∅ 1 (0, 0) true).toOption = none :=
  ⟨transform_rejects_invalid_parameters (emptyMap 2) {((0 : ℤ), (0 : ℤ))} 5 (0, 0) false
      (Or.inl (by decide)),
   transform_rejects_invalid_parameters (emptyMap 2) ∅ 1 (0, 0) true (Or.inr rfl)⟩

/-- C2: when the transformed coordinates pass validation, `place` succeeds and
the resulting terrain matrix holds `terrain` exactly at the transformed
absolute coordinates and is unchanged everywhere else. -/
theorem place_success_sets_exactly (m : Map) (shape_coords : Finset Coord)
    (terrain : Terrains) (rotation : ℤ) (position : Coord) (mirror on_ruin : Bool)
    (cs : Finset Coord)
    (htrans : m.transform_to_map_coords shape_coords rotation position mirror
      = Except.ok cs)
    (hvalid : (Cluster.mk cs m).is_valid on_ruin = true) (d : Coord) :
    Except.map (fun m2 => m2.terrain_map d)
        (m.place shape_coords terrain rotation position mirror on_ruin)
      = Except.ok (if d ∈ cs then terrain else m.terrain_map d) := by
  have hboard : cs ⊆ boardCells m.size := on_map_subset_board (is_valid_on_map hvalid)
  have hw : ∀ c ∈ cs, (npWrapCoord m.size c).isSome = true := by
    intro c hc
    rw [npWrapCoord_of_mem (hboard hc)]
    rfl
  have hmap : ∀ (f : Map → Terrains) (x : Map),
      Except.map f (Except.ok x : Except PyErr Map) = Except.ok (f x) :=
    fun _ _ => rfl
  unfold Map.place Map.transform_to_cluster
  rw [htrans]
  show Except.map (fun m2 => m2.terrain_map d) (m.writeCells cs terrain)
      = Except.ok (if d ∈ cs then terrain else m.terrain_map d)
  unfold Map.writeCells
  rw [if_pos hw, hmap]
  congr 1
  show (if ∃ c ∈ cs, npWrapCoord m.size c = some d then terrain else m.terrain_map d)
      = if d ∈ cs then terrain else m.terrain_map d
  by_cases hd : d ∈ cs
  · rw [if_pos hd, if_pos ⟨d, hd, npWrapCoord_of_mem (hboard hd)⟩]
  · rw [if_neg hd, if_neg ?hno]
    case hno =>
      rintro ⟨c, hc, hwc⟩
      rw [npWrapCoord_of_mem (hboard hc)] at hwc
      injection hwc with hcd
      exact hd (hcd ▸ hc)

/-- C2 witness: a single-cell shape placed at (1,1) on an empty 3×3 board. -/
theorem place_success_sets_exactly_witness :
    Except.map (fun m2 => m2.terrain_map ((1 : ℤ), (1 : ℤ)))
        ((emptyMap 3).place {((0 : ℤ), (0 : ℤ))} Terrains.village 0 (1, 1) false false)
      = Except.ok Terrains.village ∧
    Except.map (fun m2 => m2.terrain_map ((0 : ℤ), (0 : ℤ)))
        ((emptyMap 3).place {((0 : ℤ), (0 : ℤ))} Terrains.village 0 (1, 1) false false)
      = Except.ok Terrains.empty := by
  constructor
  · have := place_success_sets_exactly (emptyMap 3) {((0 : ℤ), (0 : ℤ))}
      Terrains.village 0 (1, 1) false false {((1 : ℤ), (1 : ℤ))} (by decide) (by decide)
      ((1 : ℤ), (1 : ℤ))
    simpa using this
  · have := place_success_sets_exactly (emptyMap 3) {((0 : ℤ), (0 : ℤ))}
      Terrains.village 0 (1, 1) false false {((1 : ℤ), (1 : ℤ))} (by decide) (by decide)
      ((0 : ℤ), (0 : ℤ))
    simpa using this

/-- C8: four quarter-turns (rotation 1, no mirror, position (0,0)), each
normalized by the transform, reproduce the normalization of the input shape —
that is, the result of the identity transform (rotation 0) on the input. -/
theorem four_quarter_turns_normalize (m : Map) (s s1 s2 s3 s4 : Finset Coord)
    (h1 : m.transform_to_map_coords s 1 (0, 0) false = Except.ok s1)
    (h2 : m.transform_to_map_coords s1 1 (0, 0) false = Except.ok s2)
    (h3 : m.transform_to_map_coords s2 1 (0, 0) false = Except.ok s3)
    (h4 : m.transform_to_map_coords s3 1 (0, 0) false = Except.ok s4) :
    m.transform_to_map_coords s 0 (0, 0) false = Except.ok s4 := by
  have hs : s.Nonempty := shape_nonempty_of_transform_ok h1
  have hs1 : s1.Nonempty := shape_nonempty_of_transform_ok h2
  have hs2 : s2.Nonempty := shape_nonempty_of_transform_ok h3
  have hs3 : s3.Nonempty := shape_nonempty_of_transform_ok h4
  have e1 : s1 = normalizeShape (rotateQuarter s) := by
    have h := transform_rot1_ok m s (0, 0) hs
    rw [translate_zero] at h
    rw [h1] at h
    exact (Except.ok.injEq _ _).mp h
  have e2 : s2 = normalizeShape (rotateQuarter (rotateQuarter s)) := by
    have h := transform_rot1_ok m s1 (0, 0) hs1
    rw [translate_zero] at h
    rw [h2] at h
    have := (Except.ok.injEq _ _).mp h
    rw [this, e1, normalize_rotate_normalize]
  have e3 : s3 = normalizeShape (rotateQuarter (rotateQuarter (rotateQuarter s))) := by
    have h := transform_rot1_ok m s2 (0, 0) hs2
    rw [translate_zero] at h
    rw [h3] at h
    have := (Except.ok.injEq _ _).mp h
    rw [this, e2, normalize_rotate_normalize]
  have e4 : s4 = normalizeShape s := by
    have h := transform_rot1_ok m s3 (0, 0) hs3
    rw [translate_zero] at h
    rw [h4] at h
    have := (Except.ok.injEq _ _).mp h
    rw [this, e3, normalize_rotate_normalize, rotateQuarter_four]
  rw [transform_rot0_ok m s (0, 0) hs, translate_zero, e4]

/-- C8 witness: the L-tromino {(0,0),(1,0),(1,1)} returns to its own
normalization after four quarter turns. -/
theorem four_quarter_turns_normalize_witness :
    (emptyMap 1).transform_to_map_coords
        {((0 : ℤ), (0 : ℤ)), (1, 0), (1, 1)} 0 (0, 0) false
      = Except.ok {((0 : ℤ), (0 : ℤ)), (1, 0), (1, 1)} :=
  four_quarter_turns_normalize (emptyMap 1)
    {((0 : ℤ), (0 : ℤ)), (1, 0), (1, 1)}
    {((0 : ℤ), (0 : ℤ)), (0, 1), (1, 0)}
    {((0 : ℤ), (0 : ℤ)), (0, 1), (1, 1)}
    {((0 : ℤ), (1 : ℤ)), (1, 0), (1, 1)}
    {((0 : ℤ), (0 : ℤ)), (1, 0), (1, 1)}
    (by decide) (by decide) (by decide) (by decide)

/-- For a non-empty cluster that lies inside the board, `surrounding_coords`
succeeds and the boundary is exactly the in-bounds non-member cells 4-adjacent
to a cluster cell. -/
theorem surrounding_coords_of_in_bounds (m : Map) (coords : Finset Coord)
    (hne : coords ≠ ∅) (hin : coords ⊆ boardCells m.size) :
    (Cluster.mk coords m).surrounding_coords
      = Except.ok ((boardCells m.size).filter fun d =>
          d ∉ coords ∧ ∃ e ∈ coords, adjacent d e) := by
  unfold Cluster.surrounding_coords
  rw [if_neg hne, if_pos ?hw]
  case hw =>
    intro c hc
    rw [npWrapCoord_of_mem (hin hc)]
    rfl
  congr 1
  apply Finset.filter_congr
  intro d _
  constructor
  · rintro ⟨hnm, c0, hc0, w, hw0, hadj⟩
    rw [npWrapCoord_of_mem (hin hc0)] at hw0
    injection hw0 with hw0
    subst hw0
    refine ⟨?_, c0, hc0, hadj⟩
    intro hd
    exact hnm ⟨d, hd, npWrapCoord_of_mem (hin hd)⟩
  · rintro ⟨hnm, e, he, hadj⟩
    refine ⟨?_, e, he, e, npWrapCoord_of_mem (hin he), hadj⟩
    rintro ⟨c0, hc0, hw0⟩
    rw [npWrapCoord_of_mem (hin hc0)] at hw0
    injection hw0 with hw0
    exact hnm (hw0 ▸ hc0)

/-- C7: for a non-empty cluster lying inside the board, `surrounding_coords`
returns exactly the in-bounds non-member cells 4-adjacent to a cluster cell;
whenever that boundary is non-empty (Python unpacks it with `zip(*...)`, which
raises on an empty boundary), `is_surrounded` returns `True` iff no boundary
cell is `EMPTY`; a single-cell cluster at the (0,0) board corner has a boundary
of exactly 2 cells and a strictly interior one a boundary of exactly 4 cells. -/
theorem cluster_boundary_and_enclosure (m : Map) (coords : Finset Coord) (r c : ℤ)
    (hne : coords ≠ ∅) (hin : coords ⊆ boardCells m.size) (hn : 2 ≤ m.size)
    (hr1 : 1 ≤ r) (hr2 : r ≤ (m.size : ℤ) - 2)
    (hc1 : 1 ≤ c) (hc2 : c ≤ (m.size : ℤ) - 2) :
    (Cluster.mk coords m).surrounding_coords
        = Except.ok ((boardCells m.size).filter fun d =>
            d ∉ coords ∧ ∃ e ∈ coords, adjacent d e) ∧
    (∀ sc, (Cluster.mk coords m).surrounding_coords = Except.ok sc → sc ≠ ∅ →
      ((Cluster.mk coords m).is_surrounded = Except.ok true ↔
        ∀ d ∈ sc, m.terrain_map d ≠ Terrains.empty)) ∧
    (Cluster.mk {((0 : ℤ), (0 : ℤ))} m).surrounding_coords
        = Except.ok {((0 : ℤ), (1 : ℤ)), ((1 : ℤ), (0 : ℤ))} ∧
    (Cluster.mk {(r, c)} m).surrounding_coords
        = Except.ok {(r - 1, c), (r + 1, c), (r, c - 1), (r, c + 1)} ∧
    Except.map Finset.card ((Cluster.mk {((0 : ℤ), (0 : ℤ))} m).surrounding_coords)
        = Except.ok 2 ∧
    Except.map Finset.card ((Cluster.mk {(r, c)} m).surrounding_coords)
        = Except.ok 4 := by
  have hcornerin : ({((0 : ℤ), (0 : ℤ))} : Finset Coord) ⊆ boardCells m.size := by
    intro x hx
    rw [Finset.mem_singleton] at hx
    subst hx
    rw [mem_boardCells]
    constructor
    · omega
    constructor
    · omega
    constructor
    · omega
    · omega
  have hintin : ({(r, c)} : Finset Coord) ⊆ boardCells m.size := by
    intro x hx
    rw [Finset.mem_singleton] at hx
    subst hx
    rw [mem_boardCells]
    constructor
    · omega
    constructor
    · omega
    constructor
    · omega
    · omega
  have hcorner : (Cluster.mk {((0 : ℤ), (0 : ℤ))} m).surrounding_coords
      = Except.ok {((0 : ℤ), (1 : ℤ)), ((1 : ℤ), (0 : ℤ))} := by
    rw [surrounding_coords_of_in_bounds m _ (by simp) hcornerin]
    congr 1
    ext d
    simp only [Finset.mem_filter, mem_boardCells, Finset.mem_insert,
      Finset.mem_singleton, adjacent, Prod.ext_iff]
    constructor
    · rintro ⟨hb, hnm, e, he, hadj⟩
      omega
    · intro h
      refine ⟨?_, ?_, ⟨((0 : ℤ), (0 : ℤ)), ?_, ?_⟩⟩
      · omega
      · omega
      · omega
      · omega
  have hint : (Cluster.mk {(r, c)} m).surrounding_coords
      = Except.ok {(r - 1, c), (r + 1, c), (r, c - 1), (r, c + 1)} := by
    rw [surrounding_coords_of_in_bounds m _ (by simp) hintin]
    congr 1
    ext d
    simp only [Finset.mem_filter, mem_boardCells, Finset.mem_insert,
      Finset.mem_singleton, adjacent, Prod.ext_iff]
    constructor
    · rintro ⟨hb, hnm, e, he, hadj⟩
      omega
    · intro h
      refine ⟨?_, ?_, ⟨(r, c), ?_, ?_⟩⟩
      · omega
      · omega
      · omega
      · omega
  refine ⟨surrounding_coords_of_in_bounds m coords hne hin, ?_, hcorner, hint, ?_, ?_⟩
  · intro sc hsc hscne
    have hst : (Cluster.mk coords m).surrounding_terrains
        = Except.ok (sc.val.map m.terrain_map) := by
      unfold Cluster.surrounding_terrains
      rw [hsc]
      exact if_neg hscne
    unfold Cluster.is_surrounded
    rw [hst]
    show Except.ok (decide (Terrains.empty ∉ Multiset.map m.terrain_map sc.val))
        = Except.ok true ↔ _
    constructor
    · intro h
      have hdec : decide (Terrains.empty ∉ Multiset.map m.terrain_map sc.val)
          = true := by
        injection h
      rw [decide_eq_true_iff] at hdec
      intro d hd he
      exact hdec (Multiset.mem_map.mpr ⟨d, Finset.mem_val.mpr hd, he⟩)
    · intro h
      refine congrArg Except.ok (decide_eq_true_iff.mpr ?_)
      intro hmem
      rcases Multiset.mem_map.mp hmem with ⟨d, hd, he⟩
      exact h d (Finset.mem_val.mp hd) he
  · rw [hcorner]
    rfl
  · rw [hint]
    show Except.ok (({(r - 1, c), (r + 1, c), (r, c - 1), (r, c + 1)} :
        Finset Coord).card) = Except.ok 4
    refine congrArg Except.ok ?_
    rw [Finset.card_insert_of_not_mem (by simp [Prod.ext_iff] <;> omega),
      Finset.card_insert_of_not_mem (by simp [Prod.ext_iff] <;> omega),
      Finset.card_insert_of_not_mem (by simp [Prod.ext_iff] <;> omega),
      Finset.card_singleton]

/-- C7 witness on the empty 3×3 board: corner (0,0) boundary has 2 cells,
interior (1,1) boundary has 4. -/
theorem cluster_boundary_and_enclosure_witness :
    Except.map Finset.card
        ((Cluster.mk {((0 : ℤ), (0 : ℤ))} (emptyMap 3)).surrounding_coords)
      = Except.ok 2 ∧
    Except.map Finset.card
        ((Cluster.mk {((1 : ℤ), (1 : ℤ))} (emptyMap 3)).surrounding_coords)
      = Except.ok 4 :=
  ⟨(cluster_boundary_and_enclosure (emptyMap 3) {((0 : ℤ), (0 : ℤ))} 1 1
      (by decide) (by decide) (by decide) (by decide) (by decide) (by decide)
      (by decide)).2.2.2.2.1,
   (cluster_boundary_and_enclosure (emptyMap 3) {((0 : ℤ), (0 : ℤ))} 1 1
      (by decide) (by decide) (by decide) (by decide) (by decide) (by decide)
      (by decide)).2.2.2.2.2⟩

/-! ### C10: the two transform variants agree -/

theorem toFinset_map_eq (l : List Coord) (f : Coord → Coord) :
    (l.map f).toFinset = l.toFinset.image f := by
  ext a
  simp [List.mem_toFinset, List.mem_map, Finset.mem_image]

theorem listMin_spec (l : List ℤ) (h : l ≠ []) :
    listMin l ∈ l ∧ ∀ b ∈ l, listMin l ≤ b := by
  obtain ⟨a, ha⟩ := WithTop.ne_top_iff_exists.mp (List.minimum_ne_top_of_ne_nil h)
  have hspec := List.minimum_eq_coe_iff.mp ha.symm
  have hval : listMin l = a := by
    unfold listMin
    rw [← ha]
    rfl
  rw [hval]
  exact hspec

theorem list_toFinset_nonempty (l : List Coord) (h : l ≠ []) :
    l.toFinset.Nonempty := by
  rw [Finset.nonempty_iff_ne_empty]
  simpa [List.toFinset_eq_empty_iff] using h

theorem listMinFst_eq (l : List Coord) (h : l ≠ []) :
    listMin (l.map Prod.fst) = minFst l.toFinset := by
  have h2 : l.map Prod.fst ≠ [] := by simpa using h
  obtain ⟨hmem, hle⟩ := listMin_spec _ h2
  symm
  apply minFst_unique _ (list_toFinset_nonempty l h)
  · rcases List.mem_map.mp hmem with ⟨c, hc, hc1⟩
    exact ⟨c, List.mem_toFinset.mpr hc, hc1⟩
  · intro cc hcc
    exact hle cc.1 (List.mem_map_of_mem _ (List.mem_toFinset.mp hcc))

theorem listMinSnd_eq (l : List Coord) (h : l ≠ []) :
    listMin (l.map Prod.snd) = minSnd l.toFinset := by
  have h2 : l.map Prod.snd ≠ [] := by simpa using h
  obtain ⟨hmem, hle⟩ := listMin_spec _ h2
  symm
  apply minSnd_unique _ (list_toFinset_nonempty l h)
  · rcases List.mem_map.mp hmem with ⟨c, hc, hc2⟩
    exact ⟨c, List.mem_toFinset.mpr hc, hc2⟩
  · intro cc hcc
    exact hle cc.2 (List.mem_map_of_mem _ (List.mem_toFinset.mp hcc))

theorem arr_set_pipeline (L : List Coord) (hLne : L ≠ []) (position : Coord) :
    (List.map ((fun c : Coord => (c.1 + position.1, c.2 + position.2)) ∘ fun c =>
        (c.1 - listMin (List.map Prod.fst L),
          c.2 - listMin (List.map Prod.snd L))) L).toFinset
      = translateShape (normalizeShape L.toFinset) position := by
  rw [toFinset_map_eq, ← Finset.image_image, listMinFst_eq L hLne, listMinSnd_eq L hLne]
  rfl

theorem arr_set_pipeline_rot (L : List Coord) (hLne : L ≠ []) (position : Coord)
    (rotf : Coord → Coord) :
    (List.map ((fun c : Coord => (c.1 + position.1, c.2 + position.2)) ∘
        (fun c : Coord => (c.1 - listMin (List.map (Prod.fst ∘ rotf) L),
            c.2 - listMin (List.map (Prod.snd ∘ rotf) L))) ∘ rotf) L).toFinset
      = translateShape (normalizeShape (L.toFinset.image rotf)) position := by
  have hR : List.map rotf L ≠ [] := by simpa using hLne
  have e1 : listMin (List.map (Prod.fst ∘ rotf) L)
      = minFst (L.toFinset.image rotf) := by
    rw [← List.map_map, listMinFst_eq (List.map rotf L) hR, toFinset_map_eq]
  have e2 : listMin (List.map (Prod.snd ∘ rotf) L)
      = minSnd (L.toFinset.image rotf) := by
    rw [← List.map_map, listMinSnd_eq (List.map rotf L) hR, toFinset_map_eq]
  rw [e1, e2, toFinset_map_eq]
  unfold translateShape normalizeShape
  rw [Finset.image_image, Finset.image_image]
  rfl

/-- C10: for a non-empty shape and a rotation in {0,1,2,3}, the numpy-array
transform (`carthographRL`) and the frozenset transform (`cartographRL`) yield
the same set of absolute map coordinates — both mirror by negating the row
coordinate before rotating. -/
theorem transform_variants_agree (m : Map) (l : List Coord) (rotation : ℤ)
    (position : Coord) (mirror : Bool) (hne : l ≠ [])
    (hrot : rotation = 0 ∨ rotation = 1 ∨ rotation = 2 ∨ rotation = 3) :
    Except.map List.toFinset (m.transform_to_map_coords_arr l rotation position mirror)
      = m.transform_to_map_coords l.toFinset rotation position mirror := by
  have hmapOk : ∀ x : List Coord,
      Except.map List.toFinset (Except.ok x : Except PyErr (List Coord))
        = Except.ok x.toFinset := fun _ => rfl
  rcases hrot with rfl | rfl | rfl | rfl
  · unfold Map.transform_to_map_coords_arr Map.transform_to_map_coords
    norm_num
    set L := (if mirror = true then List.map (fun c : Coord => (-c.1, c.2)) l else l)
      with hL
    have hLne : L ≠ [] := by
      cases mirror <;> simp [hL, hne]
    have hLfin : L.toFinset
        = (if mirror = true then mirrorShape l.toFinset else l.toFinset) := by
      cases mirror <;> simp [hL, mirrorShape, toFinset_map_eq]
    rw [← hLfin, if_neg hLne,
      if_neg (by simpa [List.toFinset_eq_empty_iff] using hLne), hmapOk,
      arr_set_pipeline L hLne position]
  · unfold Map.transform_to_map_coords_arr Map.transform_to_map_coords
    norm_num
    set L := (if mirror = true then List.map (fun c : Coord => (-c.1, c.2)) l else l)
      with hL
    have hLne : L ≠ [] := by
      cases mirror <;> simp [hL, hne]
    have hLfin : L.toFinset
        = (if mirror = true then mirrorShape l.toFinset else l.toFinset) := by
      cases mirror <;> simp [hL, mirrorShape, toFinset_map_eq]
    rw [← hLfin, if_neg hLne,
      if_neg (show rotateQuarter L.toFinset ≠ ∅ from
        Finset.Nonempty.ne_empty ((list_toFinset_nonempty L hLne).image _)),
      hmapOk, arr_set_pipeline_rot L hLne position]
    rfl
  · unfold Map.transform_to_map_coords_arr Map.transform_to_map_coords
    norm_num
    set L := (if mirror = true then List.map (fun c : Coord => (-c.1, c.2)) l else l)
      with hL
    have hLne : L ≠ [] := by
      cases mirror <;> simp [hL, hne]
    have hLfin : L.toFinset
        = (if mirror = true then mirrorShape l.toFinset else l.toFinset) := by
      cases mirror <;> simp [hL, mirrorShape, toFinset_map_eq]
    rw [← hLfin, if_neg hLne,
      if_neg (show rotateHalf L.toFinset ≠ ∅ from
        Finset.Nonempty.ne_empty ((list_toFinset_nonempty L hLne).image _)),
      hmapOk, arr_set_pipeline_rot L hLne position]
    rfl
  · unfold Map.transform_to_map_coords_arr Map.transform_to_map_coords
    norm_num
    set L := (if mirror = true then List.map (fun c : Coord => (-c.1, c.2)) l else l)
      with hL
    have hLne : L ≠ [] := by
      cases mirror <;> simp [hL, hne]
    have hLfin : L.toFinset
        = (if mirror = true then mirrorShape l.toFinset else l.toFinset) := by
      cases mirror <;> simp [hL, mirrorShape, toFinset_map_eq]
    rw [← hLfin, if_neg hLne,
      if_neg (show rotateThree L.toFinset ≠ ∅ from
        Finset.Nonempty.ne_empty ((list_toFinset_nonempty L hLne).image _)),
      hmapOk, arr_set_pipeline_rot L hLne position]
    rfl

/-- C10 witness: a mirrored domino, rotation 1, position (2,3). -/
theorem transform_variants_agree_witness :
    Except.map List.toFinset
        ((emptyMap 4).transform_to_map_coords_arr [((0 : ℤ), (0 : ℤ)), (0, 1)] 1 (2, 3) true)
      = (emptyMap 4).transform_to_map_coords
          ([((0 : ℤ), (0 : ℤ)), (0, 1)].toFinset) 1 (2, 3) true :=
  transform_variants_agree (emptyMap 4) [((0 : ℤ), (0 : ℤ)), (0, 1)] 1 (2, 3) true
    (by decide) (by decide)

/-! ### C5: the label-array components are the maximal 4-connected components -/

theorem subset_clusterStep (m : Map) (t : Terrains) (s : Finset Coord) :
    s ⊆ clusterStep m t s :=
  Finset.subset_union_left

theorem clusterStep_subset (m : Map) (t : Terrains) {s : Finset Coord}
    (hs : s ⊆ cellsOf m t) : clusterStep m t s ⊆ cellsOf m t :=
  Finset.union_subset hs (Finset.filter_subset _ _)

theorem iterate_subset (m : Map) (t : Terrains) {c : Coord} (hc : c ∈ cellsOf m t)
    (k : ℕ) : (clusterStep m t)^[k] {c} ⊆ cellsOf m t := by
  induction k with
  | zero => simpa using Finset.singleton_subset_iff.mpr hc
  | succ k ih =>
      rw [Function.iterate_succ_apply']
      exact clusterStep_subset m t ih

theorem iterate_mono_step (m : Map) (t : Terrains) (c : Coord) (k : ℕ) :
    (clusterStep m t)^[k] {c} ⊆ (clusterStep m t)^[k + 1] {c} := by
  rw [Function.iterate_succ_apply']
  exact subset_clusterStep m t _

theorem iterate_le_subset (m : Map) (t : Terrains) (c : Coord) {j k : ℕ}
    (h : j ≤ k) : (clusterStep m t)^[j] {c} ⊆ (clusterStep m t)^[k] {c} := by
  obtain ⟨d, rfl⟩ := Nat.exists_eq_add_of_le h
  clear h
  induction d with
  | zero =>
      rw [Nat.add_zero]
  | succ d ih =>
      refine subset_trans ih ?_
      rw [Nat.add_succ]
      exact iterate_mono_step m t c (j + d)

theorem mem_iterate_reach (m : Map) (t : Terrains) {c : Coord}
    (hc : c ∈ cellsOf m t) :
    ∀ k, ∀ d ∈ (clusterStep m t)^[k] {c}, ReachRel m t c d := by
  intro k
  induction k with
  | zero =>
      intro d hd
      rw [Function.iterate_zero_apply, Finset.mem_singleton] at hd
      subst hd
      exact Relation.ReflTransGen.refl
  | succ k ih =>
      intro d hd
      rw [Function.iterate_succ_apply'] at hd
      unfold clusterStep at hd
      rcases Finset.mem_union.mp hd with h | h
      · exact ih d h
      · rw [Finset.mem_filter] at h
        rcases h with ⟨hdcell, e, he, hadj⟩
        exact Relation.ReflTransGen.tail (ih e he)
          ⟨iterate_subset m t hc k he, hdcell, hadj⟩

theorem iterate_stable_forever (m : Map) (t : Terrains) (c : Coord) {k : ℕ}
    (h : (clusterStep m t)^[k + 1] {c} = (clusterStep m t)^[k] {c}) :
    ∀ j, k ≤ j → (clusterStep m t)^[j] {c} = (clusterStep m t)^[k] {c} := by
  intro j hj
  induction j, hj using Nat.le_induction with
  | base => rfl
  | succ j hj ih =>
      rw [Function.iterate_succ_apply', ih,
        ← Function.iterate_succ_apply' (clusterStep m t) k {c}, h]

theorem exists_stable_le (m : Map) (t : Terrains) {c : Coord}
    (hc : c ∈ cellsOf m t) :
    ∃ k ≤ (cellsOf m t).card,
      (clusterStep m t)^[k + 1] {c} = (clusterStep m t)^[k] {c} := by
  by_contra hcon
  push_neg at hcon
  have hgrow : ∀ k, k ≤ (cellsOf m t).card + 1 →
      k + 1 ≤ ((clusterStep m t)^[k] {c}).card := by
    intro k
    induction k with
    | zero =>
        intro _
        simp
    | succ k ih =>
        intro hk
        have h1 : k + 1 ≤ ((clusterStep m t)^[k] {c}).card := ih (by omega)
        have hss : (clusterStep m t)^[k] {c} ⊂ (clusterStep m t)^[k + 1] {c} :=
          Finset.ssubset_iff_subset_ne.mpr
            ⟨iterate_mono_step m t c k, fun heq => hcon k (by omega) heq.symm⟩
        have := Finset.card_lt_card hss
        omega
  have hbig := hgrow ((cellsOf m t).card + 1) le_rfl
  have hle : ((clusterStep m t)^[(cellsOf m t).card + 1] {c}).card
      ≤ (cellsOf m t).card :=
    Finset.card_le_card (iterate_subset m t hc _)
  omega

theorem card_cellsOf_le (m : Map) (t : Terrains) :
    (cellsOf m t).card ≤ m.size * m.size := by
  calc (cellsOf m t).card ≤ (boardCells m.size).card :=
        Finset.card_le_card (Finset.filter_subset _ _)
    _ = m.size * m.size := card_boardCells m.size

theorem clusterFrom_fixed (m : Map) (t : Terrains) {c : Coord}
    (hc : c ∈ cellsOf m t) :
    clusterStep m t (clusterFrom m t c) = clusterFrom m t c := by
  obtain ⟨k, hk, hstab⟩ := exists_stable_le m t hc
  have hk2 : k ≤ m.size * m.size := le_trans hk (card_cellsOf_le m t)
  have h1 : (clusterStep m t)^[m.size * m.size] {c} = (clusterStep m t)^[k] {c} :=
    iterate_stable_forever m t c hstab _ hk2
  have h2 : (clusterStep m t)^[m.size * m.size + 1] {c}
      = (clusterStep m t)^[k] {c} :=
    iterate_stable_forever m t c hstab _ (by omega)
  unfold clusterFrom
  rw [← Function.iterate_succ_apply' (clusterStep m t) (m.size * m.size) {c}, h2, h1]

theorem reach_mem_clusterFrom (m : Map) (t : Terrains) {c : Coord}
    (hc : c ∈ cellsOf m t) {d : Coord} (h : ReachRel m t c d) :
    d ∈ clusterFrom m t c := by
  induction h with
  | refl =>
      exact iterate_le_subset m t c (Nat.zero_le _)
        (by rw [Function.iterate_zero_apply]; exact Finset.mem_singleton_self c)
  | @tail b e hab hbe ih =>
      rw [← clusterFrom_fixed m t hc]
      unfold clusterStep
      apply Finset.mem_union_right
      rw [Finset.mem_filter]
      exact ⟨hbe.2.1, b, ih, hbe.2.2⟩

theorem clusterFrom_coe (m : Map) (t : Terrains) {c : Coord}
    (hc : c ∈ cellsOf m t) :
    ↑(clusterFrom m t c) = {d | ReachRel m t c d} := by
  ext d
  simp only [Finset.mem_coe, Set.mem_setOf_eq]
  exact ⟨fun h => mem_iterate_reach m t hc _ d h,
    fun h => reach_mem_clusterFrom m t hc h⟩

theorem reach_symm (m : Map) (t : Terrains) {c d : Coord}
    (h : ReachRel m t c d) : ReachRel m t d c :=
  Relation.ReflTransGen.symmetric
    (fun _ _ hxy => ⟨hxy.2.1, hxy.1, adjacent_symm hxy.2.2⟩) h

theorem clusterFrom_eq_of_reach (m : Map) (t : Terrains) {c c' e : Coord}
    (hc : c ∈ cellsOf m t) (hc' : c' ∈ cellsOf m t)
    (h1 : ReachRel m t c e) (h2 : ReachRel m t c' e) :
    clusterFrom m t c = clusterFrom m t c' := by
  apply Finset.coe_injective
  rw [clusterFrom_coe m t hc, clusterFrom_coe m t hc']
  have hcc : ReachRel m t c c' := h1.trans (reach_symm m t h2)
  ext d
  simp only [Set.mem_setOf_eq]
  exact ⟨fun h => (reach_symm m t hcc).trans h, fun h => hcc.trans h⟩

theorem mem_clusters_arr (m : Map) (t : Terrains) (K : Finset Coord) :
    K ∈ m.clusters_arr t ↔ ∃ c ∈ cellsOf m t, K = clusterFrom m t c := by
  unfold Map.clusters_arr rasterList
  rw [List.mem_dedup, List.mem_map]
  constructor
  · rintro ⟨c, hc, rfl⟩
    exact ⟨c, (Finset.mem_sort rasterLe).mp hc, rfl⟩
  · rintro ⟨c, hc, rfl⟩
    exact ⟨c, (Finset.mem_sort rasterLe).mpr hc, rfl⟩

theorem mem_foldr_union (l : List (Finset Coord)) (d : Coord) :
    d ∈ l.foldr (· ∪ ·) ∅ ↔ ∃ K ∈ l, d ∈ K := by
  induction l with
  | nil => simp
  | cons K l ih => simp [ih]

/-- C5: the list variant (`carthographRL`) returns exactly one coordinate set
per non-zero label of the 4-connectivity label array: the sets are non-empty,
pairwise disjoint, their union is exactly the set of board cells of the
terrain, and each is a full 4-connectivity reachability class (a maximal
4-connected component, diagonals excluded).  The frozenset variant
(`cartographRL`) never returns this partition: collecting the `Cluster`s into
a set hashes their unhashable numpy coordinate arrays, raising `TypeError`
whenever at least one cluster exists — shown here on the 1×1 all-`EMPTY`
board. -/
theorem clusters_partition (m : Map) (t : Terrains) :
    (∀ K ∈ m.clusters_arr t, K.Nonempty) ∧
    (∀ K ∈ m.clusters_arr t, ∀ L ∈ m.clusters_arr t, K ≠ L → Disjoint K L) ∧
    (m.clusters_arr t).foldr (· ∪ ·) ∅ = cellsOf m t ∧
    (∀ K ∈ m.clusters_arr t, ∃ c ∈ cellsOf m t, ↑K = {d | ReachRel m t c d}) ∧
    (∀ K, K ∈ m.clusters_arr t ↔ K ∈ labelComponents m t) ∧
    (emptyMap 1).clusters Terrains.empty = Except.error PyErr.typeError := by
  refine ⟨?_, ?_, ?_, ?_, ?_, ?_⟩
  · intro K hK
    rcases (mem_clusters_arr m t K).mp hK with ⟨c, hc, rfl⟩
    exact ⟨c, reach_mem_clusterFrom m t hc Relation.ReflTransGen.refl⟩
  · intro K hK L hL hne
    rcases (mem_clusters_arr m t K).mp hK with ⟨c, hc, rfl⟩
    rcases (mem_clusters_arr m t L).mp hL with ⟨c', hc', rfl⟩
    rw [Finset.disjoint_left]
    intro e heK heL
    exact hne (clusterFrom_eq_of_reach m t hc hc'
      (mem_iterate_reach m t hc _ e heK) (mem_iterate_reach m t hc' _ e heL))
  · ext d
    rw [mem_foldr_union]
    constructor
    · rintro ⟨K, hK, hdK⟩
      rcases (mem_clusters_arr m t K).mp hK with ⟨c, hc, rfl⟩
      exact iterate_subset m t hc _ hdK
    · intro hd
      exact ⟨clusterFrom m t d, (mem_clusters_arr m t _).mpr ⟨d, hd, rfl⟩,
        reach_mem_clusterFrom m t hd Relation.ReflTransGen.refl⟩
  · intro K hK
    rcases (mem_clusters_arr m t K).mp hK with ⟨c, hc, rfl⟩
    exact ⟨c, hc, clusterFrom_coe m t hc⟩
  · intro K
    rw [mem_clusters_arr]
    unfold labelComponents
    rw [Finset.mem_image]
    constructor
    · rintro ⟨c, hc, rfl⟩
      exact ⟨c, hc, rfl⟩
    · rintro ⟨c, hc, rfl⟩
      exact ⟨c, hc, rfl⟩
  · decide

/-- C5 witness: on the empty 2×2 board the list variant's clusters cover
exactly the terrain cells. -/
theorem clusters_partition_witness :
    ((emptyMap 2).clusters_arr Terrains.empty).foldr (· ∪ ·) ∅
      = cellsOf (emptyMap 2) Terrains.empty :=
  (clusters_partition (emptyMap 2) Terrains.empty).2.2.1

end CartographRL
